import Mathlib

/-!
Shallow embedding of the background task manager of `src/background.js`
(class `BackgroundTaskManager`), together with proofs about its event
handlers, cleanup routine, query helpers and formatting utilities.

Conventions of the embedding:
* a JS object field that some code path leaves absent is an `Option`;
  `none` models an absent field, and JS truthiness tests `!x` on numbers
  are modelled as `getD 0 = 0` (absent or zero);
* timestamps (`Date.now()`) are naturals (milliseconds);
* byte counts are naturals, derived real-valued quantities are rationals;
* the two `Map` stores are association lists with first-match lookup,
  in-place replacement on `set` and order-preserving `delete`, which is
  exactly the observable behaviour of a JS `Map`.
-/

namespace TaskManager

/-- Milliseconds since the epoch, as produced by the host clock. -/
abbrev Timestamp := ℕ

/-- Tracked record for a tab (`onTabCreated` / `onTabUpdated`).
`onTabCreated` sets `createdAt`, `memoryUsage`, `cpuUsage` but not
`lastUpdated` or `lastSeen`; `onTabUpdated` on a missing record sets
`lastUpdated` but none of the other timestamps, so those fields are
`Option`s. -/
structure TabRecord where
  id : ℕ
  title : String
  url : String
  createdAt : Option Timestamp
  lastSeen : Option Timestamp
  lastUpdated : Option Timestamp
  memoryUsage : Option ℚ
  cpuUsage : Option ℚ
  deriving Repr, DecidableEq

/-- Tracked record for a download. `onDownloadChanged` can create a record
from the empty object, so every field can be absent. -/
structure DownloadRecord where
  id : Option ℕ
  filename : Option String
  url : Option String
  state : Option String
  bytesReceived : Option ℕ
  totalBytes : Option ℕ
  createdAt : Option Timestamp
  lastUpdated : Option Timestamp
  deriving Repr, DecidableEq

/-- The empty JS object used as fallback in `onDownloadChanged`. -/
def emptyDownloadRecord : DownloadRecord :=
  ⟨none, none, none, none, none, none, none, none⟩

/-- A JS `Map` keyed by numeric id, as an association list. -/
abbrev Store (R : Type) := List (ℕ × R)

variable {R : Type}

/-- `Map.prototype.get`: the value at the first (only) pair with this key. -/
def mapGet (m : Store R) (k : ℕ) : Option R :=
  (m.find? (fun p => p.1 = k)).map Prod.snd

/-- `Map.prototype.has`. -/
def mapHas (m : Store R) (k : ℕ) : Bool :=
  m.any (fun p => p.1 = k)

/-- `Map.prototype.set`: replace in place when the key is present, append
otherwise (JS maps preserve insertion order). -/
def mapSet (m : Store R) (k : ℕ) (v : R) : Store R :=
  if mapHas m k then m.map (fun p => if p.1 = k then (k, v) else p)
  else m ++ [(k, v)]

/-- `Map.prototype.delete`, order preserving; deleting a missing key is a
no-op. -/
def mapDelete (m : Store R) (k : ℕ) : Store R :=
  m.filter (fun p => p.1 ≠ k)

/-- The keys of a store, in insertion order. -/
def keys (m : Store R) : List ℕ := m.map Prod.fst

/-- The two stores owned by `BackgroundTaskManager`. -/
structure State where
  tabStats : Store TabRecord
  downloadStats : Store DownloadRecord
  deriving Repr, DecidableEq

/-- The stores start empty in the constructor. -/
def emptyState : State := ⟨[], []⟩

/-- The fields of a host tab object that the handlers read. -/
structure HostTab where
  id : ℕ
  title : String
  url : String
  deriving Repr, DecidableEq

/-- `onTabCreated`: insert a fresh record with `createdAt = now` and zeroed
usage estimates. -/
def onTabCreated (st : State) (tab : HostTab) (now : Timestamp) : State :=
  let r : TabRecord :=
    { id := tab.id, title := tab.title, url := tab.url,
      createdAt := some now, lastSeen := none, lastUpdated := none,
      memoryUsage := some 0, cpuUsage := some 0 }
  { st with tabStats := mapSet st.tabStats tab.id r }

/-- `onTabRemoved`: delete the record. -/
def onTabRemoved (st : State) (tabId : ℕ) : State :=
  { st with tabStats := mapDelete st.tabStats tabId }

/-- `onTabUpdated`: only when the change signals `status === "complete"`,
spread the existing record (or the empty object) and overwrite `id`,
`title`, `url` and `lastUpdated`. The spread of a missing record leaves
`createdAt`, `lastSeen`, `memoryUsage`, `cpuUsage` absent. -/
def onTabUpdated (st : State) (tabId : ℕ) (statusComplete : Bool)
    (tab : HostTab) (now : Timestamp) : State :=
  if statusComplete then
    let existing := mapGet st.tabStats tabId
    let r : TabRecord :=
      { id := tabId, title := tab.title, url := tab.url,
        createdAt := existing.bind TabRecord.createdAt,
        lastSeen := existing.bind TabRecord.lastSeen,
        lastUpdated := some now,
        memoryUsage := existing.bind TabRecord.memoryUsage,
        cpuUsage := existing.bind TabRecord.cpuUsage }
    { st with tabStats := mapSet st.tabStats tabId r }
  else st

/-- The fields of a host download item that the handlers and queries read
(`downloads.onCreated` payload and `downloads.search` results). -/
structure HostDownloadItem where
  id : ℕ
  filename : String
  url : String
  state : String
  startTime : String
  bytesReceived : ℕ
  totalBytes : ℕ
  deriving Repr, DecidableEq

/-- `onDownloadCreated`: insert a fresh record from the full snapshot with
`createdAt = now` (and no `lastUpdated`). -/
def onDownloadCreated (st : State) (item : HostDownloadItem) (now : Timestamp) : State :=
  let r : DownloadRecord :=
    { id := some item.id, filename := some item.filename, url := some item.url,
      state := some item.state, bytesReceived := some item.bytesReceived,
      totalBytes := some item.totalBytes, createdAt := some now,
      lastUpdated := none }
  { st with downloadStats := mapSet st.downloadStats item.id r }

/-- A `downloads.onChanged` delta: each field, when present, carries the new
`current` value (the delta property is an object, hence truthy exactly when
present). -/
structure DownloadDelta where
  id : ℕ
  state : Option String
  bytesReceived : Option ℕ
  totalBytes : Option ℕ
  deriving Repr, DecidableEq

/-- `onDownloadChanged`: start from the tracked record or the empty object,
apply each delta field only when present, then stamp `lastUpdated = now`
and store the result. -/
def onDownloadChanged (st : State) (delta : DownloadDelta) (now : Timestamp) : State :=
  let existing := (mapGet st.downloadStats delta.id).getD emptyDownloadRecord
  let r1 := match delta.state with
    | some s => { existing with state := some s }
    | none => existing
  let r2 := match delta.bytesReceived with
    | some b => { r1 with bytesReceived := some b }
    | none => r1
  let r3 := match delta.totalBytes with
    | some t => { r2 with totalBytes := some t }
    | none => r2
  let r4 := { r3 with lastUpdated := some now }
  { st with downloadStats := mapSet st.downloadStats delta.id r4 }

/-- The 24-hour staleness threshold of `cleanupOldStats`, in milliseconds. -/
def maxAge : ℕ := 24 * 60 * 60 * 1000

/-- JS `a || b` on optional timestamps: `a` when present and nonzero
(truthy), else `b`. -/
def jsOrTimestamp : Option Timestamp → Option Timestamp → Option Timestamp
  | some v, b => if v = 0 then b else some v
  | none, b => b

/-- The staleness test `now - ts > maxAge`. When the timestamp is absent the
JS subtraction yields NaN, every comparison on NaN is false, and the record
is kept; the `none` branch models that. -/
def staleAt (now : Timestamp) (ts : Option Timestamp) : Bool :=
  match ts with
  | some t => decide ((now : ℤ) - (t : ℤ) > (maxAge : ℤ))
  | none => false

/-- `cleanupOldStats`: drop every tab record with
`now - (lastSeen || createdAt) > maxAge` and every download record with
`now - (lastUpdated || createdAt) > maxAge`. -/
def cleanupOldStats (st : State) (now : Timestamp) : State :=
  { tabStats := st.tabStats.filter
      (fun p => !staleAt now (jsOrTimestamp p.2.lastSeen p.2.createdAt)),
    downloadStats := st.downloadStats.filter
      (fun p => !staleAt now (jsOrTimestamp p.2.lastUpdated p.2.createdAt)) }

/-- The `changes` payload of a storage change notification: the outer
`Option` is presence of the change for that key, the inner one is presence
of `newValue`. -/
structure StorageChanges where
  tabStats : Option (Option (Store TabRecord))
  downloadStats : Option (Option (Store DownloadRecord))

/-- `new Map(pairs)`: insert the pairs in order, later pairs overriding
earlier ones with the same key. -/
def mapFromPairs (l : Store R) : Store R :=
  l.foldl (fun m p => mapSet m p.1 p.2) []

/-- `onStorageChanged`: in the `local` namespace, replace each store whose
key appears in the changes with a map built from `newValue || []`. -/
def onStorageChanged (st : State) (changes : StorageChanges) (ns : String) : State :=
  if ns = "local" then
    let st1 := match changes.tabStats with
      | some nv => { st with tabStats := mapFromPairs (nv.getD []) }
      | none => st
    match changes.downloadStats with
    | some nv => { st1 with downloadStats := mapFromPairs (nv.getD []) }
    | none => st1
  else st

/-- The unit array of `formatBytes`. -/
def sizes : List String := ["B", "KB", "MB", "GB"]

/-- The scaled value `(bytes / Math.pow(k, i)).toFixed(1)` of `formatBytes`,
kept as ten times its value: `i = Math.floor(Math.log bytes / Math.log 1024)`
is `Int.log 1024` (the real logarithm in place of the floating-point one)
and `toFixed(1)` rounds half away from zero, for positive values half up. -/
def formatScaled (q : ℚ) : ℤ :=
  ⌊q / (1024 : ℚ) ^ (Int.log 1024 q) * 10 + 1 / 2⌋

/-- The unit `sizes[i]` picked by `formatBytes`: an index outside the array
reads as `undefined`, which string concatenation renders as the text
`undefined`. -/
def formatBytesUnit (q : ℚ) : String :=
  let i := Int.log 1024 q
  if 0 ≤ i ∧ i < 4 then sizes.getD i.toNat "undefined" else "undefined"

/-- Decimal rendering of a value given as ten times itself:
`parseFloat(v.toFixed(1))` drops a trailing `.0` when the value is whole. -/
def fixedString (t : ℤ) : String :=
  if t % 10 = 0 then toString (t / 10)
  else toString (t / 10) ++ "." ++ toString (t % 10)

/-- `formatBytes`: `0 B` for a falsy input, otherwise the scaled value and
the selected unit separated by a space. -/
def formatBytes (q : ℚ) : String :=
  if q = 0 then "0 B"
  else fixedString (formatScaled q) ++ " " ++ formatBytesUnit q

/-- The numeric outcome of `calculateDownloadSpeed`: `none` models the
string `N/A`, `some q` a speed of `q` bytes per second before formatting.
The source bails out when the record is missing, `lastUpdated` or
`bytesReceived` is falsy, or the elapsed time is under one second. -/
def calculateDownloadSpeedVal (st : State) (downloadId : ℕ) (now : Timestamp) : Option ℚ :=
  match mapGet st.downloadStats downloadId with
  | none => none
  | some stats =>
    if stats.lastUpdated.getD 0 = 0 ∨ stats.bytesReceived.getD 0 = 0 then none
    else
      let timeDiff : ℚ := ((now : ℚ) - (stats.lastUpdated.getD 0 : ℚ)) / 1000
      if timeDiff < 1 then none
      else some ((stats.bytesReceived.getD 0 : ℚ) / timeDiff)

/-- `calculateDownloadSpeed` as the string the source returns. -/
def calculateDownloadSpeed (st : State) (downloadId : ℕ) (now : Timestamp) : String :=
  match calculateDownloadSpeedVal st downloadId now with
  | none => "N/A"
  | some q => formatBytes q ++ "/s"

/-- The multiplier the `switch` of `calculateTimeRemaining` applies to the
parsed speed value after lowercasing the unit; units other than
`KB`/`MB`/`GB` (including `B` and the text `undefined`) fall through to 1. -/
def speedUnitFactor (u : String) : ℚ :=
  if u = "KB" then 1024
  else if u = "MB" then 1024 * 1024
  else if u = "GB" then 1024 * 1024 * 1024
  else 1

/-- The numeric outcome of `calculateTimeRemaining` (`none` models `N/A`).
The source formats the speed with `formatBytes` and parses number and unit
back out of the string with a regular expression; on the strings
`formatBytes` produces the parse always succeeds and yields exactly the
rounded numeric part (`formatScaled q / 10`) and the unit part, which is
what this definition uses. -/
def calculateTimeRemainingVal (st : State) (downloadId : ℕ) (now : Timestamp) : Option ℚ :=
  match mapGet st.downloadStats downloadId with
  | none => none
  | some stats =>
    if stats.totalBytes.getD 0 = 0 ∨ stats.bytesReceived.getD 0 = 0 ∨
        stats.state ≠ some "in_progress" then none
    else
      match calculateDownloadSpeedVal st downloadId now with
      | none => none
      | some q =>
        let speedValue : ℚ := (formatScaled q : ℚ) / 10
        let bytesPerSecond := speedValue * speedUnitFactor (formatBytesUnit q)
        some (((stats.totalBytes.getD 0 : ℚ) - (stats.bytesReceived.getD 0 : ℚ))
          / bytesPerSecond)

/-- `formatTime`: seconds, minutes or hours, rounded half up as
`Math.round` does. -/
def formatTime (seconds : ℚ) : String :=
  if seconds < 60 then toString ⌊seconds + 1 / 2⌋ ++ "s"
  else if seconds < 3600 then toString ⌊seconds / 60 + 1 / 2⌋ ++ "m"
  else toString ⌊seconds / 3600 + 1 / 2⌋ ++ "h"

/-- `calculateTimeRemaining` as the string the source returns. -/
def calculateTimeRemaining (st : State) (downloadId : ℕ) (now : Timestamp) : String :=
  match calculateTimeRemainingVal st downloadId now with
  | none => "N/A"
  | some s => formatTime s

/-- The CPU estimate of `getSystemStats` when the host CPU interface is
available: `Math.min(90, Math.max(5, tabCount * 2 + downloadCount * 5 +
Math.random() * 20))`, with the random noise an explicit parameter. -/
def systemCpuEstimate (tabCount downloadCount : ℕ) (noise : ℚ) : ℚ :=
  min 90 (max 5 ((tabCount : ℚ) * 2 + (downloadCount : ℚ) * 5 + noise))

/-- The `progress` expression of `getEnhancedDownloadStats`: the exact
percentage when both byte counts are truthy, 0 otherwise. -/
def progressOf (bytesReceived totalBytes : ℕ) : ℚ :=
  if bytesReceived ≠ 0 ∧ totalBytes ≠ 0 then
    ((bytesReceived : ℚ) / (totalBytes : ℚ)) * 100
  else 0

/-- One element of the list built by `getEnhancedDownloadStats`: the host
item spread first, the tracked record spread second (tracked fields, when
present, override the host ones), then the computed fields. -/
structure EnhancedDownload where
  id : ℕ
  filename : String
  url : String
  state : String
  startTime : String
  bytesReceived : ℕ
  totalBytes : ℕ
  createdAt : Option Timestamp
  lastUpdated : Option Timestamp
  progress : ℚ
  speed : String
  estimatedTimeRemaining : String
  deriving Repr, DecidableEq

/-- The enhancement of a single host download item. `progress` reads the
host item fields (not the merged ones), exactly as the source does. -/
def enhanceDownload (st : State) (now : Timestamp) (d : HostDownloadItem) : EnhancedDownload :=
  let stored := (mapGet st.downloadStats d.id).getD emptyDownloadRecord
  { id := stored.id.getD d.id,
    filename := stored.filename.getD d.filename,
    url := stored.url.getD d.url,
    state := stored.state.getD d.state,
    startTime := d.startTime,
    bytesReceived := stored.bytesReceived.getD d.bytesReceived,
    totalBytes := stored.totalBytes.getD d.totalBytes,
    createdAt := stored.createdAt,
    lastUpdated := stored.lastUpdated,
    progress := progressOf d.bytesReceived d.totalBytes,
    speed := calculateDownloadSpeed st d.id now,
    estimatedTimeRemaining := calculateTimeRemaining st d.id now }

/-- The comparator `(a, b) => b.startTime.localeCompare(a.startTime)` as the
condition for `a` to be allowed before `b`, with `localeCompare` modelled as
the code-point order on strings. -/
def downloadBefore (a b : EnhancedDownload) : Bool :=
  decide (b.startTime ≤ a.startTime)

/-- `getEnhancedDownloadStats`: enhance every host item, then sort by start
time, descending; the JS stable sort is modelled by `mergeSort`. -/
def getEnhancedDownloadStats (st : State) (downloads : List HostDownloadItem)
    (now : Timestamp) : List EnhancedDownload :=
  (downloads.map (enhanceDownload st now)).mergeSort downloadBefore

/-- A tab lifecycle event, for reasoning about event sequences. -/
inductive TabEvent where
  | created (tab : HostTab) (now : Timestamp)
  | removed (tabId : ℕ)
  deriving Repr, DecidableEq

/-- Dispatch of one tab lifecycle event to its handler. -/
def applyTabEvent (st : State) : TabEvent → State
  | .created tab now => onTabCreated st tab now
  | .removed tabId => onTabRemoved st tabId

/-- A whole sequence of tab lifecycle events, applied in order. -/
def applyTabEvents (st : State) (evs : List TabEvent) : State :=
  evs.foldl applyTabEvent st

/-- One step of the specification-side id tracking: a created id joins the
set, a removed id leaves it. -/
def liveStep (s : Finset ℕ) : TabEvent → Finset ℕ
  | .created tab _ => insert tab.id s
  | .removed tabId => s.erase tabId

/-- The set of ids created and not subsequently removed by a sequence of
tab events. -/
def liveIds (evs : List TabEvent) : Finset ℕ :=
  evs.foldl liveStep ∅

/-! ### Lemmas about the store operations -/

theorem mapGet_cons_self (p : ℕ × R) (m : Store R) (k : ℕ) (h : p.1 = k) :
    mapGet (p :: m) k = some p.2 := by
  unfold mapGet
  rw [List.find?_cons_of_pos _ (by simpa using h)]
  rfl

theorem mapGet_cons_ne (p : ℕ × R) (m : Store R) (k : ℕ) (h : ¬ p.1 = k) :
    mapGet (p :: m) k = mapGet m k := by
  unfold mapGet
  rw [List.find?_cons_of_neg _ (by simpa using h)]

theorem mapHas_iff_mem_keys (m : Store R) (k : ℕ) :
    mapHas m k = true ↔ k ∈ keys m := by
  unfold mapHas keys
  rw [List.any_eq_true]
  constructor
  · rintro ⟨p, hp, hpk⟩
    exact List.mem_map.mpr ⟨p, hp, by simpa using hpk⟩
  · intro hk
    rcases List.mem_map.mp hk with ⟨p, hp, hpk⟩
    exact ⟨p, hp, by simpa using hpk⟩

theorem mapGet_eq_none_iff (m : Store R) (k : ℕ) :
    mapGet m k = none ↔ k ∉ keys m := by
  unfold mapGet
  rw [Option.map_eq_none', List.find?_eq_none]
  constructor
  · intro h hk
    rcases List.mem_map.mp hk with ⟨p, hp, hpk⟩
    exact h p hp (by simpa using hpk)
  · intro h p hp hpk
    exact h (List.mem_map.mpr ⟨p, hp, by simpa using hpk⟩)

theorem mapGet_replace_self (m : Store R) (k : ℕ) (v : R) :
    mapHas m k = true →
    mapGet (m.map (fun p => if p.1 = k then (k, v) else p)) k = some v := by
  induction m with
  | nil => intro h; simp [mapHas] at h
  | cons p m ih =>
    intro h
    by_cases hp : p.1 = k
    · rw [List.map_cons, if_pos hp]
      exact mapGet_cons_self (k, v) _ k rfl
    · have h2 : mapHas m k = true := by
        unfold mapHas at h ⊢
        rw [List.any_cons] at h
        simpa [hp] using h
      rw [List.map_cons, if_neg hp, mapGet_cons_ne p _ k hp]
      exact ih h2

theorem mapGet_append_fresh (m : Store R) (k : ℕ) (v : R) :
    mapHas m k = false → mapGet (m ++ [(k, v)]) k = some v := by
  induction m with
  | nil =>
    intro _
    exact mapGet_cons_self (k, v) [] k rfl
  | cons p m ih =>
    intro h
    unfold mapHas at h
    rw [List.any_cons, Bool.or_eq_false_iff] at h
    have hp : ¬ p.1 = k := by simpa using h.1
    rw [List.cons_append, mapGet_cons_ne p _ k hp]
    exact ih h.2

theorem mapGet_mapSet_self (m : Store R) (k : ℕ) (v : R) :
    mapGet (mapSet m k v) k = some v := by
  unfold mapSet
  by_cases h : mapHas m k = true
  · rw [if_pos h]
    exact mapGet_replace_self m k v h
  · rw [if_neg h]
    exact mapGet_append_fresh m k v (by simpa using h)


theorem mapSet_of_fresh (m : Store R) (k : ℕ) (v : R) (h : mapHas m k = false) :
    mapSet m k v = m ++ [(k, v)] := by
  simp [mapSet, h]

theorem keys_mapSet_has (m : Store R) (k : ℕ) (v : R) (h : mapHas m k = true) :
    keys (mapSet m k v) = keys m := by
  unfold mapSet
  rw [if_pos h]
  unfold keys
  rw [List.map_map]
  apply List.map_congr_left
  intro p _
  by_cases hpk : p.1 = k <;> simp [hpk]

theorem keys_mapSet_fresh (m : Store R) (k : ℕ) (v : R) (h : mapHas m k = false) :
    keys (mapSet m k v) = keys m ++ [k] := by
  simp [mapSet, h, keys]

theorem keys_nodup_mapSet (m : Store R) (k : ℕ) (v : R) (h : (keys m).Nodup) :
    (keys (mapSet m k v)).Nodup := by
  by_cases hh : mapHas m k = true
  · rw [keys_mapSet_has m k v hh]
    exact h
  · have hf : mapHas m k = false := by simpa using hh
    rw [keys_mapSet_fresh m k v hf]
    have hk : k ∉ keys m := fun hk => hh ((mapHas_iff_mem_keys m k).mpr hk)
    simp [List.nodup_append, h, hk]

theorem keys_toFinset_mapSet (m : Store R) (k : ℕ) (v : R) :
    (keys (mapSet m k v)).toFinset = insert k (keys m).toFinset := by
  by_cases hh : mapHas m k = true
  · rw [keys_mapSet_has m k v hh]
    have : k ∈ (keys m).toFinset := by
      simpa using (mapHas_iff_mem_keys m k).mp hh
    rw [Finset.insert_eq_self.mpr this]
  · rw [keys_mapSet_fresh m k v (by simpa using hh)]
    ext a
    simp [or_comm]

theorem keys_nodup_mapDelete (m : Store R) (k : ℕ) (h : (keys m).Nodup) :
    (keys (mapDelete m k)).Nodup :=
  List.Nodup.sublist ((List.filter_sublist m).map Prod.fst) h

theorem keys_toFinset_mapDelete (m : Store R) (k : ℕ) :
    (keys (mapDelete m k)).toFinset = (keys m).toFinset.erase k := by
  ext a
  simp only [mapDelete, keys, List.mem_toFinset, List.mem_map, List.mem_filter,
    Finset.mem_erase]
  constructor
  · rintro ⟨p, ⟨hp, hne⟩, rfl⟩
    exact ⟨by simpa using hne, p, hp, rfl⟩
  · rintro ⟨hne, p, hp, rfl⟩
    exact ⟨p, ⟨hp, by simpa using hne⟩, rfl⟩

theorem mapDelete_of_get_none (m : Store R) (k : ℕ) (h : mapGet m k = none) :
    mapDelete m k = m := by
  unfold mapDelete
  apply List.filter_eq_self.mpr
  intro p hp
  have hk := (mapGet_eq_none_iff m k).mp h
  unfold keys at hk
  simp only [decide_eq_true_iff]
  intro hpk
  exact hk (List.mem_map.mpr ⟨p, hp, hpk⟩)

theorem mem_of_mapGet_eq_some (m : Store R) (k : ℕ) (r : R) :
    mapGet m k = some r → (k, r) ∈ m := by
  induction m with
  | nil => intro h; simp [mapGet] at h
  | cons p m ih =>
    intro h
    by_cases hp : p.1 = k
    · rw [mapGet_cons_self p m k hp] at h
      rcases p with ⟨p1, p2⟩
      obtain rfl : p2 = r := by simpa using h
      obtain rfl : p1 = k := hp
      exact List.mem_cons_self _ _
    · rw [mapGet_cons_ne p m k hp] at h
      exact List.mem_cons_of_mem _ (ih h)

theorem mapGet_eq_some_of_mem (l : Store R) (k : ℕ) (r : R) :
    (keys l).Nodup → (k, r) ∈ l → mapGet l k = some r := by
  induction l with
  | nil => intro _ hm; simp at hm
  | cons p l ih =>
    intro h hm
    simp only [keys, List.map_cons, List.nodup_cons] at h
    rcases List.mem_cons.mp hm with heq | hm2
    · rw [← heq]
      exact mapGet_cons_self (k, r) l k rfl
    · by_cases hp : p.1 = k
      · exfalso
        apply h.1
        rw [hp]
        exact List.mem_map.mpr ⟨(k, r), hm2, rfl⟩
      · rw [mapGet_cons_ne p l k hp]
        exact ih h.2 hm2

theorem mapGet_eq_some_iff (l : Store R) (h : (keys l).Nodup) (k : ℕ) (r : R) :
    mapGet l k = some r ↔ (k, r) ∈ l :=
  ⟨mem_of_mapGet_eq_some l k r, mapGet_eq_some_of_mem l k r h⟩

theorem mapGet_filter (m : Store R) (k : ℕ) (r : R) (pred : ℕ × R → Bool)
    (hkeep : pred (k, r) = true) :
    mapGet m k = some r → mapGet (m.filter pred) k = some r := by
  induction m with
  | nil => intro h; simp [mapGet] at h
  | cons q m ih =>
    intro h
    by_cases hq : q.1 = k
    · have hqr : q = (k, r) := by
        rcases q with ⟨q1, q2⟩
        rw [mapGet_cons_self (q1, q2) m k hq] at h
        obtain rfl : q2 = r := by simpa using h
        obtain rfl : q1 = k := hq
        rfl
      subst hqr
      rw [List.filter_cons, if_pos (by simpa using hkeep)]
      exact mapGet_cons_self (k, r) _ k rfl
    · rw [mapGet_cons_ne q m k hq] at h
      rw [List.filter_cons]
      cases hpred : pred q
      · simpa using ih h
      · rw [if_pos (by simp [hpred])]
        rw [mapGet_cons_ne q _ k hq]
        exact ih h

theorem mapFromPairs_aux (l : Store R) : ∀ m : Store R,
    (keys m ++ keys l).Nodup →
    l.foldl (fun acc p => mapSet acc p.1 p.2) m = m ++ l := by
  induction l with
  | nil =>
    intro m _
    simp
  | cons p l ih =>
    intro m h
    have hmem : p.1 ∉ keys m := by
      have hd := List.disjoint_of_nodup_append h
      intro hk
      exact hd hk (by simp [keys])
    have hfresh : mapHas m p.1 = false := by
      cases hh : mapHas m p.1
      · rfl
      · exact absurd ((mapHas_iff_mem_keys m p.1).mp hh) hmem
    rw [List.foldl_cons, mapSet_of_fresh m p.1 p.2 hfresh]
    have hnd : (keys (m ++ [(p.1, p.2)]) ++ keys l).Nodup := by
      have : keys (m ++ [(p.1, p.2)]) ++ keys l = keys m ++ keys (p :: l) := by
        simp [keys]
      rwa [this]
    rw [ih (m ++ [(p.1, p.2)]) hnd]
    simp

theorem mapFromPairs_eq_self (l : Store R) (h : (keys l).Nodup) :
    mapFromPairs l = l := by
  have := mapFromPairs_aux l [] (by simpa [keys] using h)
  simpa [mapFromPairs] using this

/-! ### Claim theorems -/

/-- C4: for every tab count, in-progress download count and random noise
value, the CPU estimate computed by `getSystemStats` lies in the closed
interval from 5 to 90. -/
theorem systemCpuEstimate_bounds (tabCount downloadCount : ℕ) (noise : ℚ) :
    5 ≤ systemCpuEstimate tabCount downloadCount noise ∧
    systemCpuEstimate tabCount downloadCount noise ≤ 90 := by
  unfold systemCpuEstimate
  exact ⟨le_min (by norm_num) (le_max_left 5 _), min_le_left 90 _⟩

/-- C8: the progress attached by `getEnhancedDownloadStats` is the exact
rational `bytesReceived / totalBytes * 100` whenever `totalBytes` is
nonzero (in particular 25 for 50 of 200 bytes), and 0 whenever `totalBytes`
is falsy. -/
theorem progress_exact (st : State) (now : Timestamp) (d : HostDownloadItem) :
    (enhanceDownload st now d).progress = progressOf d.bytesReceived d.totalBytes ∧
    (∀ br tb : ℕ, tb ≠ 0 → progressOf br tb = ((br : ℚ) / (tb : ℚ)) * 100) ∧
    progressOf 50 200 = 25 ∧
    ∀ br : ℕ, progressOf br 0 = 0 := by
  refine ⟨rfl, ?_, ?_, ?_⟩
  · intro br tb htb
    unfold progressOf
    by_cases hbr : br = 0
    · subst hbr
      simp
    · rw [if_pos ⟨hbr, htb⟩]
  · norm_num [progressOf]
  · intro br
    simp [progressOf]

/-- Witness for C8 at the concrete input of the claim. -/
theorem progress_exact_witness :
    progressOf 50 200 = ((50 : ℚ) / (200 : ℚ)) * 100 :=
  (progress_exact emptyState 0 ⟨0, "f", "u", "s", "t", 0, 0⟩).2.1 50 200 (by norm_num)

/-- C1: `onDownloadChanged` stores, under the id of the delta, the prior
record (the empty record when none is tracked) with each of `state`,
`bytesReceived` and `totalBytes` overwritten exactly when the delta carries
that field, every field absent from the delta retained, and `lastUpdated`
set to the current time. -/
theorem onDownloadChanged_partial_delta (st : State) (delta : DownloadDelta)
    (now : Timestamp) :
    mapGet (onDownloadChanged st delta now).downloadStats delta.id =
      some { (mapGet st.downloadStats delta.id).getD emptyDownloadRecord with
             state := Option.or delta.state
               ((mapGet st.downloadStats delta.id).getD emptyDownloadRecord).state,
             bytesReceived := Option.or delta.bytesReceived
               ((mapGet st.downloadStats delta.id).getD emptyDownloadRecord).bytesReceived,
             totalBytes := Option.or delta.totalBytes
               ((mapGet st.downloadStats delta.id).getD emptyDownloadRecord).totalBytes,
             lastUpdated := some now } := by
  unfold onDownloadChanged
  rw [mapGet_mapSet_self]
  congr 1
  rcases delta with ⟨deltaId, ds, db, dt⟩
  cases ds <;> cases db <;> cases dt <;> rfl

/-- Induction behind C5: applying tab events keeps the key list duplicate
free and tracks the specification-side id set step by step. -/
theorem applyTabEvents_keys (evs : List TabEvent) : ∀ st : State,
    (keys st.tabStats).Nodup →
    (keys (applyTabEvents st evs).tabStats).Nodup ∧
    (keys (applyTabEvents st evs).tabStats).toFinset =
      evs.foldl liveStep (keys st.tabStats).toFinset := by
  induction evs with
  | nil =>
    intro st h
    exact ⟨h, rfl⟩
  | cons e evs ih =>
    intro st h
    have hstep : (keys (applyTabEvent st e).tabStats).Nodup ∧
        (keys (applyTabEvent st e).tabStats).toFinset =
          liveStep (keys st.tabStats).toFinset e := by
      cases e with
      | created tab now =>
        exact ⟨keys_nodup_mapSet _ _ _ h, keys_toFinset_mapSet _ _ _⟩
      | removed tabId =>
        exact ⟨keys_nodup_mapDelete _ _ h, keys_toFinset_mapDelete _ _⟩
    obtain ⟨ih1, ih2⟩ := ih (applyTabEvent st e) hstep.1
    refine ⟨ih1, ?_⟩
    rw [List.foldl_cons, ← hstep.2]
    exact ih2

/-- C5: starting from the empty store, the number of tracked tab records
equals the number of distinct ids created and not subsequently removed, and
removing an id with no tracked record is a no-op. -/
theorem tabStore_count_eq_liveIds (evs : List TabEvent) :
    (applyTabEvents emptyState evs).tabStats.length = (liveIds evs).card ∧
    ∀ (st : State) (tabId : ℕ), mapGet st.tabStats tabId = none →
      onTabRemoved st tabId = st := by
  constructor
  · obtain ⟨hn, ht⟩ := applyTabEvents_keys evs emptyState (by simp [emptyState, keys])
    have hlen : (applyTabEvents emptyState evs).tabStats.length =
        (keys (applyTabEvents emptyState evs).tabStats).length := by
      simp [keys]
    rw [hlen, ← List.toFinset_card_of_nodup hn, ht]
    rfl
  · intro st tabId h
    unfold onTabRemoved
    rw [mapDelete_of_get_none st.tabStats tabId h]

/-- Witness for C5 on a concrete event sequence, including removal of an id
that was never created. -/
theorem tabStore_count_witness :
    (applyTabEvents emptyState
        [TabEvent.created ⟨1, "a", "u"⟩ 5, TabEvent.created ⟨2, "b", "u"⟩ 6,
         TabEvent.removed 1, TabEvent.removed 3]).tabStats.length =
      (liveIds
        [TabEvent.created ⟨1, "a", "u"⟩ 5, TabEvent.created ⟨2, "b", "u"⟩ 6,
         TabEvent.removed 1, TabEvent.removed 3]).card ∧
    onTabRemoved emptyState 7 = emptyState :=
  ⟨(tabStore_count_eq_liveIds _).1,
   (tabStore_count_eq_liveIds []).2 emptyState 7 rfl⟩

/-- C2: a monitoring tick retains a tracked tab or download record exactly
when its most recent observation timestamp (`lastSeen` for tabs,
`lastUpdated` for downloads, falling back to `createdAt`) is at most 24
hours before the current time, and removes it when it is older. -/
theorem cleanupOldStats_staleness (st : State) (now : Timestamp) (id : ℕ)
    (rT : TabRecord) (rD : DownloadRecord) (tT tD : Timestamp)
    (hT : jsOrTimestamp rT.lastSeen rT.createdAt = some tT)
    (hD : jsOrTimestamp rD.lastUpdated rD.createdAt = some tD) :
    ((id, rT) ∈ st.tabStats →
      ((id, rT) ∈ (cleanupOldStats st now).tabStats ↔
        (now : ℤ) - (tT : ℤ) ≤ (maxAge : ℤ))) ∧
    ((id, rD) ∈ st.downloadStats →
      ((id, rD) ∈ (cleanupOldStats st now).downloadStats ↔
        (now : ℤ) - (tD : ℤ) ≤ (maxAge : ℤ))) := by
  constructor
  · intro hmem
    unfold cleanupOldStats
    simp only [List.mem_filter, hmem, true_and, hT, staleAt,
      Bool.not_eq_true', decide_eq_false_iff_not, not_lt]
  · intro hmem
    unfold cleanupOldStats
    simp only [List.mem_filter, hmem, true_and, hD, staleAt,
      Bool.not_eq_true', decide_eq_false_iff_not, not_lt]

/-- Witness for C2: with the current time at the 100 hour mark, a tab record
last seen 25 hours earlier is evicted and a download record last updated 23
hours earlier is retained. -/
theorem cleanupOldStats_staleness_witness :
    ¬ ((1, (⟨1, "t", "u", none, some 270000000, none, none, none⟩ : TabRecord)) ∈
        (cleanupOldStats
          ⟨[(1, ⟨1, "t", "u", none, some 270000000, none, none, none⟩)],
           [(2, ⟨none, none, none, none, none, none, none, some 277200000⟩)]⟩
          360000000).tabStats) ∧
    ((2, (⟨none, none, none, none, none, none, none, some 277200000⟩ : DownloadRecord)) ∈
        (cleanupOldStats
          ⟨[(1, ⟨1, "t", "u", none, some 270000000, none, none, none⟩)],
           [(2, ⟨none, none, none, none, none, none, none, some 277200000⟩)]⟩
          360000000).downloadStats) := by
  constructor
  · intro hmem
    have h := ((cleanupOldStats_staleness
        ⟨[(1, ⟨1, "t", "u", none, some 270000000, none, none, none⟩)],
         [(2, ⟨none, none, none, none, none, none, none, some 277200000⟩)]⟩
        360000000 1
        ⟨1, "t", "u", none, some 270000000, none, none, none⟩
        ⟨none, none, none, none, none, none, none, some 277200000⟩
        270000000 277200000 rfl rfl).1 (by simp)).mp hmem
    simp only [maxAge] at h
    omega
  · exact ((cleanupOldStats_staleness
        ⟨[(1, ⟨1, "t", "u", none, some 270000000, none, none, none⟩)],
         [(2, ⟨none, none, none, none, none, none, none, some 277200000⟩)]⟩
        360000000 2
        ⟨1, "t", "u", none, some 270000000, none, none, none⟩
        ⟨none, none, none, none, none, none, none, some 277200000⟩
        270000000 277200000 rfl rfl).2 (by simp)).mpr (by norm_num [maxAge])

/-- C7: an external storage change in the local namespace replaces each
store wholesale: afterwards lookup returns exactly the supplied records, no
previously tracked id survives unless it is among the supplied pairs, and
an absent new value yields an empty store. -/
theorem onStorageChanged_wholesale (st : State) (l : Store TabRecord)
    (ld : Store DownloadRecord) (hl : (keys l).Nodup) (hld : (keys ld).Nodup) :
    (∀ (id : ℕ) (r : TabRecord),
      mapGet (onStorageChanged st ⟨some (some l), some (some ld)⟩ "local").tabStats id
        = some r ↔ (id, r) ∈ l) ∧
    (∀ id : ℕ,
      mapGet (onStorageChanged st ⟨some (some l), some (some ld)⟩ "local").tabStats id
        = none ↔ id ∉ keys l) ∧
    (∀ (id : ℕ) (r : DownloadRecord),
      mapGet (onStorageChanged st ⟨some (some l), some (some ld)⟩ "local").downloadStats id
        = some r ↔ (id, r) ∈ ld) ∧
    (∀ id : ℕ,
      mapGet (onStorageChanged st ⟨some (some l), some (some ld)⟩ "local").downloadStats id
        = none ↔ id ∉ keys ld) ∧
    (onStorageChanged st ⟨some none, some none⟩ "local").tabStats = [] ∧
    (onStorageChanged st ⟨some none, some none⟩ "local").downloadStats = [] := by
  have htab : (onStorageChanged st ⟨some (some l), some (some ld)⟩ "local").tabStats
      = mapFromPairs l := rfl
  have hdl : (onStorageChanged st ⟨some (some l), some (some ld)⟩ "local").downloadStats
      = mapFromPairs ld := rfl
  refine ⟨?_, ?_, ?_, ?_, rfl, rfl⟩
  · intro id r
    rw [htab, mapFromPairs_eq_self l hl]
    exact mapGet_eq_some_iff l hl id r
  · intro id
    rw [htab, mapFromPairs_eq_self l hl]
    exact mapGet_eq_none_iff l id
  · intro id r
    rw [hdl, mapFromPairs_eq_self ld hld]
    exact mapGet_eq_some_iff ld hld id r
  · intro id
    rw [hdl, mapFromPairs_eq_self ld hld]
    exact mapGet_eq_none_iff ld id

/-- Witness for C7 at the concrete value of the spec example: a supplied
pair for id 7 is returned by lookup afterwards and an id not supplied is
gone. -/
theorem onStorageChanged_wholesale_witness :
    mapGet (onStorageChanged emptyState
        ⟨some (some [(7, ⟨7, "t", "u", none, none, none, none, none⟩)]), some (some [])⟩
        "local").tabStats 7
      = some (⟨7, "t", "u", none, none, none, none, none⟩ : TabRecord) ∧
    mapGet (onStorageChanged emptyState
        ⟨some (some [(7, ⟨7, "t", "u", none, none, none, none, none⟩)]), some (some [])⟩
        "local").tabStats 9 = none := by
  constructor
  · exact ((onStorageChanged_wholesale emptyState
        [(7, ⟨7, "t", "u", none, none, none, none, none⟩)] []
        (by simp [keys]) (by simp [keys])).1 7 _).mpr (by simp)
  · exact ((onStorageChanged_wholesale emptyState
        [(7, ⟨7, "t", "u", none, none, none, none, none⟩)] []
        (by simp [keys]) (by simp [keys])).2.1 9).mpr (by simp [keys])

/-- C9: a tab record first created through the update path has neither
`createdAt` nor `lastSeen`, and cleanup never evicts it, at any later
time. -/
theorem onTabUpdated_never_evicted (st : State) (tabId : ℕ) (tab : HostTab)
    (now : Timestamp) (h : mapGet st.tabStats tabId = none) :
    ∃ r : TabRecord,
      mapGet (onTabUpdated st tabId true tab now).tabStats tabId = some r ∧
      r.createdAt = none ∧ r.lastSeen = none ∧
      ∀ later : Timestamp,
        mapGet (cleanupOldStats (onTabUpdated st tabId true tab now) later).tabStats tabId
          = some r := by
  have hstore : (onTabUpdated st tabId true tab now).tabStats =
      mapSet st.tabStats tabId
        ⟨tabId, tab.title, tab.url, none, none, some now, none, none⟩ := by
    simp [onTabUpdated, h]
  refine ⟨⟨tabId, tab.title, tab.url, none, none, some now, none, none⟩, ?_, rfl, rfl, ?_⟩
  · rw [hstore]
    exact mapGet_mapSet_self _ _ _
  · intro later
    show mapGet ((onTabUpdated st tabId true tab now).tabStats.filter _) tabId = _
    apply mapGet_filter _ _ _ _ rfl
    rw [hstore]
    exact mapGet_mapSet_self _ _ _

/-- Witness for C9 on the empty store, with cleanup run ten thousand days
later. -/
theorem onTabUpdated_never_evicted_witness :
    ∃ r : TabRecord,
      mapGet (cleanupOldStats (onTabUpdated emptyState 5 true ⟨5, "t", "u"⟩ 10)
        864000000000).tabStats 5 = some r ∧ r.createdAt = none := by
  obtain ⟨r, _, hc, _, hl⟩ :=
    onTabUpdated_never_evicted emptyState 5 ⟨5, "t", "u"⟩ 10 rfl
  exact ⟨r, hl 864000000000, hc⟩

/-- C3: in the list returned by `getEnhancedDownloadStats`, every adjacent
pair is ordered by start time, descending, with the start-time comparison
the string order the source comparator uses. -/
theorem getEnhancedDownloadStats_sorted (st : State)
    (downloads : List HostDownloadItem) (now : Timestamp) :
    List.Chain' (fun a b => b.startTime ≤ a.startTime)
      (getEnhancedDownloadStats st downloads now) := by
  have htrans : ∀ a b c : EnhancedDownload,
      downloadBefore a b → downloadBefore b c → downloadBefore a c := by
    intro a b c hab hbc
    simp only [downloadBefore, decide_eq_true_iff] at *
    exact le_trans hbc hab
  have htotal : ∀ a b : EnhancedDownload,
      downloadBefore a b || downloadBefore b a := by
    intro a b
    simp only [downloadBefore, Bool.or_eq_true, decide_eq_true_iff]
    exact le_total b.startTime a.startTime
  apply List.Pairwise.chain'
  exact (List.sorted_mergeSort htrans htotal
    (downloads.map (enhanceDownload st now))).imp (fun h => of_decide_eq_true h)

/-- The logarithm base 1024 of one half is minus one. -/
theorem log1024_half : Int.log 1024 (1 / 2 : ℚ) = -1 := by
  have hb : (1 : ℕ) < 1024 := by norm_num
  have hq : (0 : ℚ) < 1 / 2 := by norm_num
  have h1 : Int.log 1024 (1 / 2 : ℚ) < 0 := by
    refine (Int.lt_zpow_iff_log_lt hb hq).mp ?_
    rw [zpow_zero]
    norm_num
  have h2 : (-1 : ℤ) ≤ Int.log 1024 (1 / 2 : ℚ) := by
    refine (Int.zpow_le_iff_le_log hb hq).mp ?_
    rw [zpow_neg, zpow_one]
    norm_num
  omega

/-- The scaled mantissa `formatBytes` computes for one half. -/
theorem formatScaled_half : formatScaled (1 / 2 : ℚ) = 5120 := by
  unfold formatScaled
  rw [log1024_half, zpow_neg, zpow_one]
  norm_num

/-- C10: `formatBytes` picks a real byte unit only for inputs between one
and a terabyte; the falsy input 0 renders as `0 B`; a positive input under
one byte, such as the half byte per second `calculateDownloadSpeed` can
compute, drives the unit index negative and renders the text `undefined`
in place of a unit. -/
theorem formatBytes_unit_behaviour :
    (∀ q : ℚ, 0 < q → formatBytesUnit q ∈ sizes →
        1 ≤ q ∧ q < (1024 : ℚ) ^ (4 : ℕ)) ∧
    (∀ q : ℚ, 1 ≤ q → q < (1024 : ℚ) ^ (4 : ℕ) → formatBytesUnit q ∈ sizes) ∧
    formatBytes 0 = "0 B" ∧
    formatBytes (1 / 2) = "512 undefined" ∧
    calculateDownloadSpeed
        ⟨[], [(1, ⟨none, none, none, some "in_progress", some 1, none, none, some 1000⟩)]⟩
        1 3000
      = "512 undefined/s" := by
  have hb : (1 : ℕ) < 1024 := by norm_num
  have hunit : formatBytesUnit (1 / 2 : ℚ) = "undefined" := by
    simp only [formatBytesUnit, log1024_half]
    decide
  have hfb : formatBytes (1 / 2 : ℚ) = "512 undefined" := by
    unfold formatBytes
    rw [if_neg (by norm_num), formatScaled_half, hunit]
    rfl
  refine ⟨?_, ?_, rfl, hfb, ?_⟩
  · intro q hq hmem
    unfold formatBytesUnit at hmem
    by_cases hcond : 0 ≤ Int.log 1024 q ∧ Int.log 1024 q < 4
    · constructor
      · have := (Int.zpow_le_iff_le_log hb hq).mpr hcond.1
        rw [zpow_zero] at this
        exact this
      · have := (Int.lt_zpow_iff_log_lt hb hq).mpr hcond.2
        rw [show ((4 : ℤ) = ((4 : ℕ) : ℤ)) from rfl, zpow_natCast] at this
        exact_mod_cast this
    · rw [if_neg hcond] at hmem
      exact absurd hmem (by decide)
  · intro q h1 h4
    have hq : (0 : ℚ) < q := lt_of_lt_of_le zero_lt_one h1
    have hi0 : (0 : ℤ) ≤ Int.log 1024 q := by
      refine (Int.zpow_le_iff_le_log hb hq).mp ?_
      rw [zpow_zero]
      exact h1
    have hi4 : Int.log 1024 q < 4 := by
      refine (Int.lt_zpow_iff_log_lt hb hq).mp ?_
      rw [show ((4 : ℤ) = ((4 : ℕ) : ℤ)) from rfl, zpow_natCast]
      exact_mod_cast h4
    unfold formatBytesUnit
    rw [if_pos ⟨hi0, hi4⟩]
    have hlen : (Int.log 1024 q).toNat < sizes.length := by
      simp only [sizes, List.length_cons, List.length_nil]
      omega
    rw [List.getD_eq_getElem?_getD, List.getElem?_eq_getElem hlen]
    exact List.getElem_mem _
  · have hval : calculateDownloadSpeedVal
        ⟨[], [(1, ⟨none, none, none, some "in_progress", some 1, none, none, some 1000⟩)]⟩
        1 3000 = some (1 / 2 : ℚ) := by
      unfold calculateDownloadSpeedVal
      norm_num [mapGet]
    unfold calculateDownloadSpeed
    rw [hval]
    show formatBytes (1 / 2 : ℚ) ++ "/s" = "512 undefined/s"
    rw [hfb]
    rfl

/-- Witness for C10 at an in-range input. -/
theorem formatBytes_unit_witness :
    formatBytesUnit 1536 ∈ sizes :=
  formatBytes_unit_behaviour.2.1 1536 (by norm_num) (by norm_num)

/-- Counterexample to C6 as stated: a tracked record with a prior update
(`lastUpdated` present), four seconds elapsed, but zero bytes received.
The claim localizes `N/A` to a missing prior update or to under one second
elapsed, so it requires a numeric speed here, yet the source reports
`N/A` because of its additional `!stats.bytesReceived` test. -/
theorem calculateDownloadSpeed_na_counterexample :
    calculateDownloadSpeed
        ⟨[], [(1, ⟨none, none, none, some "in_progress", some 0, some 100, some 500, some 1000⟩)]⟩
        1 5000 = "N/A" ∧
    mapGet
        (⟨[], [(1, ⟨none, none, none, some "in_progress", some 0, some 100, some 500, some 1000⟩)]⟩
          : State).downloadStats 1 =
      some ⟨none, none, none, some "in_progress", some 0, some 100, some 500, some 1000⟩ ∧
    (1 : ℚ) ≤ (((5000 : ℕ) : ℚ) - ((1000 : ℕ) : ℚ)) / 1000 :=
  ⟨rfl, rfl, by norm_num⟩

/-- C6 amended: `calculateDownloadSpeed` reports `N/A` exactly when there
is no prior update (no tracked record or falsy `lastUpdated`), the tracked
`bytesReceived` is zero or absent, or the elapsed time since the last
update is under one second, and otherwise reports the speed
`bytesReceived / elapsedSeconds` (rendered through `formatBytes`);
`calculateTimeRemaining` reports `N/A` whenever the record is missing, the
state is not in-progress, the total byte count is falsy, or the speed is
unavailable. -/
theorem downloadSpeed_timeRemaining_na (st : State) (id : ℕ) (now : Timestamp) :
    (calculateDownloadSpeedVal st id now = none ↔
      ∀ stats : DownloadRecord, mapGet st.downloadStats id = some stats →
        stats.lastUpdated.getD 0 = 0 ∨ stats.bytesReceived.getD 0 = 0 ∨
          ((now : ℚ) - (stats.lastUpdated.getD 0 : ℚ)) / 1000 < 1) ∧
    (∀ stats : DownloadRecord, mapGet st.downloadStats id = some stats →
      stats.lastUpdated.getD 0 ≠ 0 → stats.bytesReceived.getD 0 ≠ 0 →
      1 ≤ ((now : ℚ) - (stats.lastUpdated.getD 0 : ℚ)) / 1000 →
      calculateDownloadSpeedVal st id now =
        some ((stats.bytesReceived.getD 0 : ℚ) /
          (((now : ℚ) - (stats.lastUpdated.getD 0 : ℚ)) / 1000))) ∧
    (∀ q : ℚ, calculateDownloadSpeedVal st id now = some q →
      calculateDownloadSpeed st id now ≠ "N/A") ∧
    (calculateDownloadSpeedVal st id now = none →
      calculateDownloadSpeed st id now = "N/A") ∧
    (mapGet st.downloadStats id = none → calculateTimeRemainingVal st id now = none) ∧
    (∀ stats : DownloadRecord, mapGet st.downloadStats id = some stats →
      stats.state ≠ some "in_progress" → calculateTimeRemainingVal st id now = none) ∧
    (∀ stats : DownloadRecord, mapGet st.downloadStats id = some stats →
      stats.totalBytes.getD 0 = 0 → calculateTimeRemainingVal st id now = none) ∧
    (calculateDownloadSpeedVal st id now = none →
      calculateTimeRemainingVal st id now = none) ∧
    (calculateTimeRemainingVal st id now = none →
      calculateTimeRemaining st id now = "N/A") := by
  refine ⟨?_, ?_, ?_, ?_, ?_, ?_, ?_, ?_, ?_⟩
  · unfold calculateDownloadSpeedVal
    cases hm : mapGet st.downloadStats id with
    | none => simp [hm]
    | some stats =>
      simp only [hm, Option.some.injEq]
      by_cases h1 : stats.lastUpdated.getD 0 = 0 ∨ stats.bytesReceived.getD 0 = 0
      · rw [if_pos h1]
        simp only [true_iff]
        intro stats2 h2
        subst h2
        tauto
      · rw [if_neg h1]
        push_neg at h1
        by_cases h2 : ((now : ℚ) - (stats.lastUpdated.getD 0 : ℚ)) / 1000 < 1
        · rw [if_pos h2]
          simp only [true_iff]
          intro stats2 h3
          subst h3
          tauto
        · rw [if_neg h2]
          simp only [reduceCtorEq, false_iff, not_forall]
          exact ⟨stats, rfl, by tauto⟩
  · intro stats hm hlu hbr helapsed
    unfold calculateDownloadSpeedVal
    simp only [hm]
    rw [if_neg (by tauto), if_neg (not_lt.mpr helapsed)]
  · intro q hq hcontra
    unfold calculateDownloadSpeed at hcontra
    rw [hq] at hcontra
    have hd : (formatBytes q).data ++ ['/', 's'] = ['N', '/', 'A'] := by
      have hx := congrArg String.data hcontra
      rwa [String.data_append] at hx
    have h2 : ((formatBytes q).data ++ ['/']) ++ ['s'] = ['N', '/', 'A'] := by
      rw [List.append_assoc]
      exact hd
    have h3 := congrArg List.getLast? h2
    rw [List.getLast?_concat] at h3
    simp at h3
  · intro h
    unfold calculateDownloadSpeed
    rw [h]
  · intro hm
    unfold calculateTimeRemainingVal
    rw [hm]
  · intro stats hm hstate
    unfold calculateTimeRemainingVal
    simp only [hm]
    rw [if_pos (by tauto)]
  · intro stats hm htotal
    unfold calculateTimeRemainingVal
    simp only [hm]
    rw [if_pos (by tauto)]
  · intro hv
    unfold calculateTimeRemainingVal
    cases hm : mapGet st.downloadStats id with
    | none => rfl
    | some stats =>
      simp only [hv]
      split <;> rfl
  · intro hv
    unfold calculateTimeRemaining
    rw [hv]

/-- Witness for C6 on a record with four bytes over two elapsed seconds. -/
theorem downloadSpeed_timeRemaining_na_witness :
    calculateDownloadSpeedVal
        ⟨[], [(1, ⟨none, none, none, some "in_progress", some 4, some 100, none, some 1000⟩)]⟩
        1 3000 = some 2 := by
  have h := (downloadSpeed_timeRemaining_na
      ⟨[], [(1, ⟨none, none, none, some "in_progress", some 4, some 100, none, some 1000⟩)]⟩
      1 3000).2.1
      ⟨none, none, none, some "in_progress", some 4, some 100, none, some 1000⟩
      rfl (by decide) (by decide) (by norm_num)
  rw [h]
  norm_num

end TaskManager
